import Mathlib

/-!
# Verification of the hybrid tool-retrieval and orchestration pipeline

Shallow embedding of the core retrieval-and-planning pipeline of the
repository (approach1): the hybrid keyword+vector tool search
(`utils/faiss_indexers.py`), the index cache load-or-build logic, the
orchestration loop of `utils/agents.py` / `services/agent_service.py`,
the planner's JSON decoding (`utils/orchestrator.py`), and the server
registry bookkeeping (`services/registry_service.py`).

Python strings are modelled as Lean `String`s, operated on through their
underlying character lists so that every definition is executable.
External collaborators (the embedding service, the FAISS index ranking,
the LLM, the execution agent) are modelled as explicit function
parameters, with instrumentation (call counts / invocation records)
where a claim is about whether a collaborator is invoked.
-/

/-! ## Python string primitives -/

/-- Python `str.split()` whitespace set: space, tab, newline, CR, FF, VT. -/
def pyIsSpace (c : Char) : Bool :=
  c = ' ' || c = '\t' || c = '\n' || c = '\r' || c = '\x0c' || c = '\x0b'

/-- Python `str.lower()` on the character list of a string. -/
def pyLower (s : String) : List Char :=
  s.data.map Char.toLower

/-- Auxiliary for `pySplitWs`: accumulate the current word (reversed). -/
def pySplitWsAux : List Char → List Char → List (List Char)
  | [], acc => if acc = [] then [] else [acc.reverse]
  | c :: cs, acc =>
    if pyIsSpace c then
      if acc = [] then pySplitWsAux cs [] else acc.reverse :: pySplitWsAux cs []
    else
      pySplitWsAux cs (c :: acc)

/-- Python `str.split()` with no argument: split on runs of whitespace,
dropping empty tokens. -/
def pySplitWs (l : List Char) : List (List Char) :=
  pySplitWsAux l []

/-- `needle` is a prefix of `hay` (on character lists). -/
def listIsPrefOf : List Char → List Char → Bool
  | [], _ => true
  | _ :: _, [] => false
  | a :: as, b :: bs => a = b && listIsPrefOf as bs

/-- Python `needle in hay` substring containment on character lists. -/
def hasSubList (needle : List Char) : List Char → Bool
  | [] => needle.isEmpty
  | b :: bs => listIsPrefOf needle (b :: bs) || hasSubList needle bs

/-- Python `needle in hay` on strings. -/
def pyIn (needle hay : String) : Bool :=
  hasSubList needle.data hay.data

/-- Python `str.strip()`: drop leading and trailing whitespace. -/
def pyStrip (s : String) : String :=
  ⟨((s.data.dropWhile pyIsSpace).reverse.dropWhile pyIsSpace).reverse⟩

/-! ## Data model

A `Tool` is one entry of a server's catalog as built in
`agents.py`/`registry_service.py`: `{"name": ..., "description": ...,
"input_schema": ..., "function": ...}`.  The schema and the callable are
opaque to the whole pipeline; they are modelled by one opaque `Nat`
payload so that claims about metadata-insensitivity can be stated. -/

structure Tool where
  name : String
  description : String
  meta : Nat
  deriving DecidableEq, Repr

/-! ## HybridToolSearch (`FAISSToolIndexer.search`)

The FAISS vector index is opaque: `index_search` models
`self.index.search(query_emb, k)` as the index's full similarity ranking
for a query (a list of positions into `tools`), of which the code takes
the first `k`.  The returned `Bool` instruments whether the semantic
branch ran, i.e. whether `get_embedding` and `self.index.search` were
invoked. -/

/-- `score = sum(1 for kw in keywords if kw in name_lower or kw in desc_lower)`. -/
def keywordScore (keywords : List (List Char)) (tool : Tool) : Nat :=
  (keywords.filter fun kw =>
    hasSubList kw (pyLower tool.name) || hasSubList kw (pyLower tool.description)).length

/-- Stable insertion by descending key: the new element goes before the
first element whose key is not larger. -/
def insertByKeyDesc (f : Tool → Nat) (x : Tool) : List Tool → List Tool
  | [] => [x]
  | y :: ys => if f y ≤ f x then x :: y :: ys else y :: insertByKeyDesc f x ys

/-- Python `sorted(l, key=f, reverse=True)`: stable sort by descending key. -/
def sortByKeyDesc (f : Tool → Nat) : List Tool → List Tool
  | [] => []
  | x :: xs => insertByKeyDesc f x (sortByKeyDesc f xs)

/-- Query keywords: `query.lower().split()` as computed in `search`. -/
def toolKeywords (query : String) : List (List Char) :=
  pySplitWs (pyLower query)

/-- The `keyword_matches` list of `search`: `scored_tools` filtered to
score > 0, keeping the tool of each pair (original catalog order). -/
def keywordMatches (tools : List Tool) (query : String) : List Tool :=
  ((tools.map fun tool => (keywordScore (toolKeywords query) tool, tool)).filter
    fun st => 0 < st.1).map (·.2)

/-- The `semantic_results` list of `search`'s fallback branch:
`self.index.search(query_emb, min(top_k * 2, len(self.tools)))` mapped back
to tools (`self.tools[idx]`). -/
def vectorCandidates (index_search : String → List Nat) (tools : List Tool)
    (query : String) (top_k : Nat) : List Tool :=
  ((index_search query).take (min (top_k * 2) tools.length)).filterMap fun i => tools.get? i

namespace FAISSToolIndexer

/-- `FAISSToolIndexer.search` of `utils/faiss_indexers.py`.  The second
component instruments the fallback branch: `true` iff `get_embedding` and
`self.index.search` were invoked. -/
def search (index_search : String → List Nat) (tools : List Tool)
    (query : String) (top_k : Nat) : List Tool × Bool :=
  if tools = [] then ([], false)
  else
    let keyword_matches := keywordMatches tools query
    if top_k ≤ keyword_matches.length then
      ((sortByKeyDesc (keywordScore (toolKeywords query)) keyword_matches).take top_k, false)
    else
      let semantic_results := vectorCandidates index_search tools query top_k
      let result := semantic_results.foldl
        (fun res tool => if tool ∉ res ∧ res.length < top_k then res ++ [tool] else res)
        keyword_matches
      (result.take top_k, true)

end FAISSToolIndexer

/-! ## Spec-side ranking definitions

The spec describes the keyword ranking as "sorted descending by score
(stable tie-break: original catalog order)".  `bucketsDesc` realizes that
description directly and independently of the code's sort: scan the
possible scores from the highest down, and for each score keep the
matching tools in their original order. -/

/-- All elements of `l` whose key is `n - 1`, then those with key `n - 2`,
and so on down to key `0`, each group in the order of `l`. -/
def bucketsDesc (f : Tool → Nat) : Nat → List Tool → List Tool
  | 0, _ => []
  | s + 1, l => l.filter (fun a => f a = s) ++ bucketsDesc f s l

/-- The largest key of a list (0 when empty). -/
def maxKeyOf (f : Tool → Nat) (l : List Tool) : Nat :=
  (l.map f).foldr max 0

/-- Modelled from the spec's words: the keyword matches "sorted descending
by score (stable tie-break: original catalog order)", built by score
buckets from the maximum score down. -/
def specKeywordRanking (tools : List Tool) (query : String) : List Tool :=
  let f := keywordScore (toolKeywords query)
  let km := keywordMatches tools query
  bucketsDesc f (maxKeyOf f km + 1) km

/-- Modelled from the spec's words for the fallback branch: "taking all of
keyword_matches first (preserving their order), then appending semantic
candidates not already included, until either top_k items are collected or
candidates are exhausted.  Return at most top_k." -/
def specFill (top_k : Nat) : List Tool → List Tool → List Tool
  | base, [] => base.take top_k
  | base, c :: cs =>
    if top_k ≤ base.length then base.take top_k
    else if c ∈ base then specFill top_k base cs
    else specFill top_k (base ++ [c]) cs

/-- The hybrid-branch contract exactly as the claim words it: the result
begins with the keyword matches in descending-score order (the "step-3
order") before the semantic fill.  The code violates this: the fallback
branch uses `keyword_matches` in original catalog order, without sorting. -/
def hybridSearchClaim : Prop :=
  ∀ (index_search : String → List Nat) (tools : List Tool) (query : String) (top_k : Nat),
    tools ≠ [] → (keywordMatches tools query).length < top_k →
    (FAISSToolIndexer.search index_search tools query top_k).1
      = specFill top_k (specKeywordRanking tools query)
          (vectorCandidates index_search tools query top_k)

/-! ## BaseFAISSIndexer: on-disk cache, load-or-build (`faiss_indexers.py`)

The on-disk cache of one collection is the pair of files
`tool_<server>.faiss` (the serialized index) and `tool_<server>.pkl`
(the pickled `tool_info` fingerprint).  The embedding service is an
explicit parameter `embed` returning `Except` (it may fail); the serialized
index is modelled as the list of embeddings it was built from.
`buildEmbeddings` mirrors `_build_index`'s comprehension
`[get_embedding(f"{name}: {desc}") for t in self.tools]`, counting the
embedding calls actually made (it stops at the first failure, as a raised
exception does). -/

/-- The fingerprint `tool_info = [(t['name'], t['description']) for t in tools]`. -/
def toolFingerprint (tools : List Tool) : List (String × String) :=
  tools.map fun t => (t.name, t.description)

/-- On-disk cache state for one collection: the `.faiss` index file and the
`.pkl` metadata file, each possibly absent. -/
structure CacheState where
  indexFile : Option (List Nat)
  metaFile : Option (List (String × String))
  deriving DecidableEq, Repr

/-- `_build_index`: one `get_embedding` call per tool, in order, stopping at
the first failure.  Returns the number of embedding calls made and either
the built index or the propagated error. -/
def buildEmbeddings (embed : String → Except String Nat) : List Tool → Nat × Except String (List Nat)
  | [] => (0, .ok [])
  | t :: ts =>
    match embed (t.name ++ ": " ++ t.description) with
    | .error e => (1, .error e)
    | .ok v =>
      let rest := buildEmbeddings embed ts
      (rest.1 + 1, match rest.2 with
        | .error e => .error e
        | .ok vs => .ok (v :: vs))

namespace BaseFAISSIndexer

/-- `_load_or_build`: if both cache files exist and the stored metadata
equals `current`, load from cache; otherwise run the build and, only if it
succeeds, `_save` both files.  Returns the cache state after the call, the
number of embedding calls made, and the index (or the propagated build
error).  An exception raised by the build propagates before `_save` runs,
so the cache files are untouched in that case. -/
def load_or_build (cache : CacheState) (current : List (String × String))
    (buildRes : Nat × Except String (List Nat)) :
    CacheState × Nat × Except String (List Nat) :=
  match cache.indexFile, cache.metaFile with
  | some idx, some cached =>
    if cached ≠ current then
      match buildRes with
      | (n, .error e) => (cache, n, .error e)
      | (n, .ok embs) => (⟨some embs, some current⟩, n, .ok embs)
    else
      (cache, 0, .ok idx)
  | _, _ =>
    match buildRes with
    | (n, .error e) => (cache, n, .error e)
    | (n, .ok embs) => (⟨some embs, some current⟩, n, .ok embs)

end BaseFAISSIndexer

namespace FAISSToolIndexer

/-- `FAISSToolIndexer.__init__`: with an empty tool list it returns before
any cache access or embedding call (`self.index` stays `None`); otherwise
it computes `tool_info` and delegates to `_load_or_build`.  Returns the
cache state after construction, the number of embedding calls, and the
index held by the instance (`none` when no index was built). -/
def init (embed : String → Except String Nat) (tools : List Tool)
    (cache : CacheState) : CacheState × Nat × Except String (Option (List Nat)) :=
  if tools = [] then (cache, 0, .ok none)
  else
    match BaseFAISSIndexer.load_or_build cache (toolFingerprint tools) (buildEmbeddings embed tools) with
    | (cache', n, .error e) => (cache', n, .error e)
    | (cache', n, .ok idx) => (cache', n, .ok (some idx))

end FAISSToolIndexer

/-- The cache-use contract exactly as the claim words it, over every
construction: the cached index is used with no embedding calls iff a cache
entry exists whose stored fingerprint equals the current fingerprint;
otherwise the index is rebuilt with one embedding call per item and the
cache is overwritten; and tools differing only in metadata other than
name/description behave identically. -/
def cacheUseClaim : Prop :=
  ∀ (embedfn : String → Nat) (tools : List Tool) (cache : CacheState),
    (((FAISSToolIndexer.init (fun s => .ok (embedfn s)) tools cache).2.1 = 0
        ∧ (FAISSToolIndexer.init (fun s => .ok (embedfn s)) tools cache).2.2 = .ok cache.indexFile)
      ↔ (cache.indexFile ≠ none ∧ cache.metaFile = some (toolFingerprint tools)))
    ∧ (¬ (cache.indexFile ≠ none ∧ cache.metaFile = some (toolFingerprint tools)) →
        (FAISSToolIndexer.init (fun s => .ok (embedfn s)) tools cache).2.1 = tools.length
        ∧ (FAISSToolIndexer.init (fun s => .ok (embedfn s)) tools cache).1
          = ⟨some (tools.map fun t => embedfn (t.name ++ ": " ++ t.description)),
             some (toolFingerprint tools)⟩)
    ∧ (∀ tools₂ : List Tool, toolFingerprint tools₂ = toolFingerprint tools →
        FAISSToolIndexer.init (fun s => .ok (embedfn s)) tools₂ cache
          = FAISSToolIndexer.init (fun s => .ok (embedfn s)) tools cache)

/-! ## Planner and orchestration loop (`orchestrator.py`, `agents.py`,
`agent_service.py`)

The LLM calls are opaque: the planning agent's raw response is the
parameter `llmResponse`, and `jsonParse` models `json.loads` (returning
`none` exactly when the text is not valid JSON of the plan shape, in which
case the Python code raises).  The execution agent is opaque: an
`ExecCall` records one invocation of `OrchestratorAgent.execute` — the
tools passed, the `thread` argument as given (`none` = Python `None`),
and the thread actually used after the `None` check (which `execute` also
returns as the updated thread).  Threads themselves are opaque (`Nat`). -/

structure Plan where
  servers : List String
  tool_queries : List (String × String)
  deriving DecidableEq, Repr

inductive OrchestratorError where
  | planParse (raw : String)
  deriving DecidableEq, Repr

/-- Association-list lookup, modelling Python `dict` access by key. -/
def alLookup {α : Type} (l : List (String × α)) (k : String) : Option α :=
  (l.find? fun p => p.1 = k).map (·.2)

/-- Association-list update, modelling Python `d[k] = v`. -/
def alInsert {α : Type} (l : List (String × α)) (k : String) (v : α) : List (String × α) :=
  (l.filter fun p => ¬ p.1 = k) ++ [(k, v)]

/-- Association-list deletion, modelling Python `del d[k]`. -/
def alErase {α : Type} (l : List (String × α)) (k : String) : List (String × α) :=
  l.filter fun p => ¬ p.1 = k

namespace OrchestratorAgent

/-- `decode_json`: strip an optional ```` ```json ```` or ```` ``` ````
code fence and whitespace from the raw LLM response. -/
def decode_json (response_text : String) : String :=
  if pyIn "```json" response_text then
    pyStrip ((((response_text.splitOn "```json").getD 1 "").splitOn "```").headD "")
  else if pyIn "```" response_text then
    pyStrip ((((response_text.splitOn "```").getD 1 "").splitOn "```").headD "")
  else
    pyStrip response_text

/-- `plan`: fence-strip the planning agent's response and JSON-decode it;
text that is not valid JSON raises (no retry at this layer), carrying the
raw response. -/
def plan (jsonParse : String → Option Plan) (llmResponse : String) :
    Except OrchestratorError Plan :=
  match jsonParse (decode_json llmResponse) with
  | none => .error (.planParse llmResponse)
  | some p => .ok p

end OrchestratorAgent

/-- One invocation of `OrchestratorAgent.execute`. -/
structure ExecCall where
  tools : List Tool
  passedThread : Option Nat
  usedThread : Nat
  deriving DecidableEq, Repr

namespace OrchestratorAgent

/-- `execute`: create a new thread when the given one is `None`, run the
execution agent with it, and return it as the updated thread. -/
def execute (newThread : Nat) (tools : List Tool) (thread : Option Nat) : ExecCall :=
  ⟨tools, thread, thread.getD newThread⟩

end OrchestratorAgent

/-- Runtime state of one `FAISSToolIndexer` as consumed by the filtering
loop: the tools it was built over and its vector ranking. -/
structure IndexerRT where
  tools : List Tool
  index_search : String → List Nat

/-- The tool/indexer registry of `MultiMCPAgentWithFiltering`. -/
structure MultiMCPAgentState where
  server_tools : List (String × List Tool)
  tool_indexers : List (String × IndexerRT)

/-- The per-target filtering loop shared verbatim by
`MultiMCPAgentWithFiltering.run` and `AgentService.process_query`:
targets absent from `tool_indexers` are skipped; otherwise the target's
indexer is searched with its per-target tool query (default: the raw
query) and `top_k = 5`, and the server's tools whose names were selected
are accumulated. -/
def planFilter (ag : MultiMCPAgentState) (plan : Plan) (query : String) : List Tool :=
  plan.servers.foldl
    (fun acc server_name =>
      match alLookup ag.tool_indexers server_name with
      | none => acc
      | some indexer =>
        let tool_query := (alLookup plan.tool_queries server_name).getD query
        let relevant := (FAISSToolIndexer.search indexer.index_search indexer.tools tool_query 5).1
        let tool_names := relevant.map (·.name)
        let selected := ((alLookup ag.server_tools server_name).getD []).filter
          fun t => t.name ∈ tool_names
        acc ++ selected)
    []

/-- The fallback aggregation: every tool of every planned target present
in `server_tools`. -/
def fallbackAllTools (ag : MultiMCPAgentState) (plan : Plan) : List Tool :=
  plan.servers.foldl (fun acc s => acc ++ (alLookup ag.server_tools s).getD []) []

namespace MultiMCPAgentWithFiltering

/-- `MultiMCPAgentWithFiltering.run`: plan, filter, fall back to all tools
of the planned servers, and — only if tools remain — execute.  `.ok none`
is the neutral "No tools available" outcome, in which the execution agent
is never invoked. -/
def run (jsonParse : String → Option Plan) (llmResponse : String) (newThread : Nat)
    (ag : MultiMCPAgentState) (query : String) (thread : Option Nat) :
    Except OrchestratorError (Option ExecCall) :=
  match OrchestratorAgent.plan jsonParse llmResponse with
  | .error e => .error e
  | .ok p =>
    let all_filtered_tools := planFilter ag p query
    let all_filtered_tools :=
      if all_filtered_tools = [] then fallbackAllTools ag p else all_filtered_tools
    if all_filtered_tools = [] then .ok none
    else .ok (some (OrchestratorAgent.execute newThread all_filtered_tools thread))

end MultiMCPAgentWithFiltering

/-- `AgentService` state: the agent registry plus the session thread store
(`self.threads`). -/
structure AgentServiceState where
  agent : MultiMCPAgentState
  threads : List (String × Nat)

/-- Python truthiness of `Optional[str]` as used by `if session_id:` —
`None` and the empty string are falsy. -/
def pyTruthyStr : Option String → Bool
  | none => false
  | some s => ¬ s = ""

namespace AgentService

/-- `AgentService.process_query`: plan, filter, fall back to all tools —
then ALWAYS execute (the source has no empty-tool-set guard here), look up
the session thread (`self.threads.get(session_id) if session_id else
None`), and store the updated thread when a session id is truthy. -/
def process_query (jsonParse : String → Option Plan) (llmResponse : String)
    (newThread : Nat) (st : AgentServiceState) (query : String)
    (session_id : Option String) :
    Except OrchestratorError (AgentServiceState × ExecCall) :=
  match OrchestratorAgent.plan jsonParse llmResponse with
  | .error e => .error e
  | .ok p =>
    let all_filtered_tools := planFilter st.agent p query
    let all_filtered_tools :=
      if all_filtered_tools = [] then fallbackAllTools st.agent p else all_filtered_tools
    let thread := if pyTruthyStr session_id then alLookup st.threads (session_id.getD "")
      else none
    let call := OrchestratorAgent.execute newThread all_filtered_tools thread
    let threads' := if pyTruthyStr session_id
      then alInsert st.threads (session_id.getD "") call.usedThread
      else st.threads
    .ok (⟨st.agent, threads'⟩, call)

end AgentService

/-- The session-continuity contract exactly as the claim words it: for
EVERY session id shared by two consecutive queries, the first query's
updated thread is stored under that id and the second query passes that
stored thread (not null) to the execution step. -/
def sessionContinuityClaim : Prop :=
  ∀ (jsonParse : String → Option Plan) (llmResponse1 llmResponse2 : String)
    (newT1 newT2 : Nat)
    (st : AgentServiceState) (q1 q2 : String) (sid : String)
    (st1 st2 : AgentServiceState) (c1 c2 : ExecCall),
    AgentService.process_query jsonParse llmResponse1 newT1 st q1 (some sid) = .ok (st1, c1) →
    AgentService.process_query jsonParse llmResponse2 newT2 st1 q2 (some sid) = .ok (st2, c2) →
    alLookup st1.threads sid = some c1.usedThread
    ∧ c2.passedThread = some c1.usedThread

/-! ## Registry bookkeeping (`agents.py` initialize, `registry_service.py`)

The three per-server maps of `MultiMCPAgentWithFiltering`:
`mcp_connections` (opaque connection objects, modelled as `Unit`),
`server_tools`, and `tool_indexers` (a FAISS indexer is represented by
the tool list it was built over).  The update of the `MCP_SERVERS` config
dict is outside these maps and not modelled. -/

/-- One function exposed by a capability provider
(`mcp_tool.functions`). -/
structure MCPFunc where
  name : String
  description : Option String
  input_schema : Nat
  deriving DecidableEq, Repr

/-- `func.description or func.name`: Python `or` falls back on falsy
descriptions (`None` and `""`). -/
def funcDescription (f : MCPFunc) : String :=
  match f.description with
  | none => f.name
  | some d => if d = "" then f.name else d

/-- The tool dict built from one function in `initialize`/`add_server`. -/
def funcToTool (f : MCPFunc) : Tool :=
  ⟨f.name, funcDescription f, f.input_schema⟩

/-- The three per-server maps. -/
structure AgentMaps where
  mcp_connections : List (String × Unit)
  server_tools : List (String × List Tool)
  tool_indexers : List (String × List Tool)
  deriving Repr

/-- The body of the per-server loop of
`MultiMCPAgentWithFiltering.initialize`: connect, then either record an
empty tool list (no indexer) or record tools and build an indexer. -/
def initStep (m : AgentMaps) (entry : String × List MCPFunc) : AgentMaps :=
  let m1 : AgentMaps := {m with mcp_connections := alInsert m.mcp_connections entry.1 ()}
  if entry.2 = [] then
    {m1 with server_tools := alInsert m1.server_tools entry.1 []}
  else
    let tools := entry.2.map funcToTool
    {m1 with server_tools := alInsert m1.server_tools entry.1 tools,
             tool_indexers := alInsert m1.tool_indexers entry.1 tools}

namespace MultiMCPAgentWithFiltering

/-- The `initialize` method: fold the per-server loop over the configured
servers (each with the functions its connection exposes), starting from
the empty maps of `__init__`.  (Named `initializeAgent` because
`initialize` is reserved in Lean.) -/
def initializeAgent (configs : List (String × List MCPFunc)) : AgentMaps :=
  configs.foldl initStep ⟨[], [], []⟩

end MultiMCPAgentWithFiltering

/-- `MCPServerConfig` fields used by `add_server`'s validation. -/
structure MCPServerConfig where
  name : String
  type : String
  command : Option String
  url : Option String
  deriving DecidableEq, Repr

/-- Python falsiness of an `Optional[str]` (`not config.url`). -/
def falsyOptStr : Option String → Bool
  | none => true
  | some s => s = ""

namespace RegistryService

/-- `RegistryService.add_server`: reject duplicates and invalid configs,
connect, record the connection, and index the tools (an empty function
list records an empty `server_tools` entry and no indexer).
`functions` models what the fresh connection exposes. -/
def add_server (m : AgentMaps) (config : MCPServerConfig)
    (functions : List MCPFunc) : Except String AgentMaps :=
  if (alLookup m.mcp_connections config.name).isSome then
    .error ("Server '" ++ config.name ++ "' already exists")
  else if config.type = "http" ∧ falsyOptStr config.url then
    .error "HTTP servers require a URL"
  else if config.type = "stdio" ∧ falsyOptStr config.command then
    .error "Stdio servers require a command"
  else
    let m1 : AgentMaps := {m with mcp_connections := alInsert m.mcp_connections config.name ()}
    if functions ≠ [] then
      let tools := functions.map funcToTool
      .ok {m1 with server_tools := alInsert m1.server_tools config.name tools,
                   tool_indexers := alInsert m1.tool_indexers config.name tools}
    else
      .ok {m1 with server_tools := alInsert m1.server_tools config.name []}

/-- `RegistryService.remove_server`: reject unknown names, disconnect,
and delete the server from all three maps (the source guards the
`server_tools`/`tool_indexers` deletes with membership tests; deleting an
absent key is the identity here). -/
def remove_server (m : AgentMaps) (server_name : String) : Except String AgentMaps :=
  if (alLookup m.mcp_connections server_name).isNone then
    .error ("Server '" ++ server_name ++ "' not found")
  else
    .ok ⟨alErase m.mcp_connections server_name,
         alErase m.server_tools server_name,
         alErase m.tool_indexers server_name⟩

end RegistryService

/-- The registry consistency invariant: every indexed server is also
present in `server_tools` and `mcp_connections`. -/
def registryConsistent (m : AgentMaps) : Prop :=
  ∀ k : String, (alLookup m.tool_indexers k).isSome →
    (alLookup m.server_tools k).isSome ∧ (alLookup m.mcp_connections k).isSome

/-! ## Supporting lemmas and claim theorems -/

/-! ### The code's stable sort matches the spec's bucket ranking -/

theorem bucketsDesc_nil (f : Tool → Nat) : ∀ n, bucketsDesc f n [] = [] := by
  intro n
  induction n with
  | zero => rfl
  | succ s ih => simp [bucketsDesc, ih]

theorem mem_bucketsDesc {f : Tool → Nat} {n : Nat} {l : List Tool} {x : Tool}
    (hx : x ∈ bucketsDesc f n l) : f x < n ∧ x ∈ l := by
  induction n with
  | zero => simp [bucketsDesc] at hx
  | succ s ih =>
    simp only [bucketsDesc, List.mem_append] at hx
    rcases hx with h | h
    · rcases List.mem_filter.mp h with ⟨hmem, hkey⟩
      simp only [decide_eq_true_eq] at hkey
      exact ⟨by omega, hmem⟩
    · rcases ih h with ⟨h1, h2⟩
      exact ⟨Nat.lt_succ_of_lt h1, h2⟩

theorem insertByKeyDesc_append {f : Tool → Nat} {x : Tool} (A r : List Tool)
    (hA : ∀ y ∈ A, f x < f y) :
    insertByKeyDesc f x (A ++ r) = A ++ insertByKeyDesc f x r := by
  induction A with
  | nil => rfl
  | cons a as ih =>
    have hfa : ¬ f a ≤ f x := Nat.not_le.mpr (hA a (List.mem_cons_self a as))
    simp only [List.cons_append, insertByKeyDesc, if_neg hfa]
    exact congrArg (a :: ·) (ih fun y hy => hA y (List.mem_cons_of_mem a hy))

theorem insertByKeyDesc_cons {f : Tool → Nat} {x : Tool} (r : List Tool)
    (hr : ∀ y ∈ r, f y ≤ f x) :
    insertByKeyDesc f x r = x :: r := by
  cases r with
  | nil => rfl
  | cons a as =>
    simp only [insertByKeyDesc, if_pos (hr a (List.mem_cons_self a as))]

theorem bucketsDesc_cons_of_ge {f : Tool → Nat} {x : Tool} {l : List Tool}
    (n : Nat) (hx : n ≤ f x) :
    bucketsDesc f n (x :: l) = bucketsDesc f n l := by
  induction n with
  | zero => rfl
  | succ s ih =>
    have hne : ¬ f x = s := by omega
    simp only [bucketsDesc, List.filter_cons, decide_eq_true_eq, if_neg hne]
    rw [ih (by omega)]

theorem insertByKeyDesc_bucketsDesc {f : Tool → Nat} {x : Tool} {l : List Tool}
    (n : Nat) (hx : f x < n) :
    insertByKeyDesc f x (bucketsDesc f n l) = bucketsDesc f n (x :: l) := by
  induction n with
  | zero => omega
  | succ s ih =>
    by_cases hxs : f x = s
    · have hall : ∀ y ∈ l.filter (fun a => f a = s) ++ bucketsDesc f s l, f y ≤ f x := by
        intro y hy
        rcases List.mem_append.mp hy with h | h
        · have := (List.mem_filter.mp h).2
          simp only [decide_eq_true_eq] at this
          omega
        · have := (mem_bucketsDesc h).1
          omega
      simp only [bucketsDesc]
      rw [insertByKeyDesc_cons _ hall]
      have hfilter : (x :: l).filter (fun a => f a = s) = x :: l.filter (fun a => f a = s) := by
        simp [List.filter_cons, hxs]
      rw [hfilter, bucketsDesc_cons_of_ge s (by omega)]
      simp
    · have hxlt : f x < s := by omega
      have hfilter : (x :: l).filter (fun a => f a = s) = l.filter (fun a => f a = s) := by
        simp [List.filter_cons, hxs]
      simp only [bucketsDesc, hfilter]
      rw [insertByKeyDesc_append _ _ (fun y hy => by
        have := (List.mem_filter.mp hy).2
        simp only [decide_eq_true_eq] at this
        omega)]
      rw [ih hxlt]

theorem sortByKeyDesc_eq_bucketsDesc {f : Tool → Nat} (l : List Tool) (n : Nat)
    (hl : ∀ y ∈ l, f y < n) :
    sortByKeyDesc f l = bucketsDesc f n l := by
  induction l with
  | nil => rw [bucketsDesc_nil]; rfl
  | cons x xs ih =>
    simp only [sortByKeyDesc]
    rw [ih fun y hy => hl y (List.mem_cons_of_mem x hy)]
    exact insertByKeyDesc_bucketsDesc n (hl x (List.mem_cons_self x xs))

theorem le_maxKeyOf {f : Tool → Nat} {l : List Tool} {y : Tool} (hy : y ∈ l) :
    f y ≤ maxKeyOf f l := by
  induction l with
  | nil => cases hy
  | cons a as ih =>
    rcases List.mem_cons.mp hy with h | h
    · subst h; exact Nat.le_max_left _ _
    · exact Nat.le_trans (ih h) (Nat.le_max_right _ _)

theorem sortByKeyDesc_eq_specRanking (tools : List Tool) (query : String) :
    sortByKeyDesc (keywordScore (toolKeywords query)) (keywordMatches tools query)
      = specKeywordRanking tools query := by
  exact sortByKeyDesc_eq_bucketsDesc _ _
    (fun y hy => Nat.lt_succ_of_le (le_maxKeyOf hy))

/-! ### The code's fallback merge matches the spec's fill description -/

theorem foldl_merge_of_full (top_k : Nat) (cands base : List Tool)
    (hb : top_k ≤ base.length) :
    cands.foldl
      (fun res tool => if tool ∉ res ∧ res.length < top_k then res ++ [tool] else res)
      base = base := by
  induction cands with
  | nil => rfl
  | cons c cs ih =>
    simp only [List.foldl_cons]
    rw [if_neg (by rintro ⟨-, h2⟩; omega)]
    exact ih

theorem foldl_merge_take_eq_specFill (top_k : Nat) (cands base : List Tool) :
    (cands.foldl
      (fun res tool => if tool ∉ res ∧ res.length < top_k then res ++ [tool] else res)
      base).take top_k = specFill top_k base cands := by
  induction cands generalizing base with
  | nil => rfl
  | cons c cs ih =>
    simp only [List.foldl_cons, specFill]
    by_cases hfull : top_k ≤ base.length
    · rw [if_pos hfull, if_neg (by rintro ⟨-, h2⟩; omega),
        foldl_merge_of_full top_k cs base hfull]
    · rw [if_neg hfull]
      by_cases hmem : c ∈ base
      · rw [if_pos hmem, if_neg (by rintro ⟨h1, -⟩; exact h1 hmem)]
        exact ih base
      · rw [if_neg hmem, if_pos ⟨hmem, Nat.lt_of_not_le hfull⟩]
        exact ih (base ++ [c])

/-! ### Membership and length facts about `search` -/

theorem mem_insertByKeyDesc {f : Tool → Nat} {x y : Tool} {l : List Tool}
    (hy : y ∈ insertByKeyDesc f x l) : y = x ∨ y ∈ l := by
  induction l with
  | nil => simpa [insertByKeyDesc] using hy
  | cons a as ih =>
    simp only [insertByKeyDesc] at hy
    by_cases h : f a ≤ f x
    · rw [if_pos h] at hy
      rcases List.mem_cons.mp hy with h1 | h1
      · exact Or.inl h1
      · exact Or.inr h1
    · rw [if_neg h] at hy
      rcases List.mem_cons.mp hy with h1 | h1
      · exact Or.inr (h1 ▸ List.mem_cons_self a as)
      · rcases ih h1 with h2 | h2
        · exact Or.inl h2
        · exact Or.inr (List.mem_cons_of_mem a h2)

theorem mem_sortByKeyDesc {f : Tool → Nat} {y : Tool} {l : List Tool}
    (hy : y ∈ sortByKeyDesc f l) : y ∈ l := by
  induction l with
  | nil => simp [sortByKeyDesc] at hy
  | cons a as ih =>
    simp only [sortByKeyDesc] at hy
    rcases mem_insertByKeyDesc hy with h | h
    · exact h ▸ List.mem_cons_self a as
    · exact List.mem_cons_of_mem a (ih h)

theorem keywordMatches_subset {tools : List Tool} {query : String} {t : Tool}
    (ht : t ∈ keywordMatches tools query) : t ∈ tools := by
  simp only [keywordMatches, List.mem_map, List.mem_filter] at ht
  rcases ht with ⟨⟨s, u⟩, ⟨hmem, -⟩, hu⟩
  rcases hmem with ⟨v, hv, heq⟩
  cases heq
  exact hu ▸ hv

theorem vectorCandidates_subset {index_search : String → List Nat} {tools : List Tool}
    {query : String} {top_k : Nat} {t : Tool}
    (ht : t ∈ vectorCandidates index_search tools query top_k) : t ∈ tools := by
  simp only [vectorCandidates, List.mem_filterMap] at ht
  rcases ht with ⟨i, -, hget⟩
  exact List.get?_mem hget

theorem foldl_merge_mem {tools : List Tool} (top_k : Nat) (cands base : List Tool)
    (hbase : ∀ x ∈ base, x ∈ tools) (hcands : ∀ x ∈ cands, x ∈ tools) :
    ∀ x ∈ cands.foldl
      (fun res tool => if tool ∉ res ∧ res.length < top_k then res ++ [tool] else res)
      base, x ∈ tools := by
  induction cands generalizing base with
  | nil => exact hbase
  | cons c cs ih =>
    simp only [List.foldl_cons]
    intro x hx
    by_cases hc : c ∉ base ∧ base.length < top_k
    · rw [if_pos hc] at hx
      refine ih (base ++ [c]) ?_ (fun y hy => hcands y (List.mem_cons_of_mem c hy)) x hx
      intro y hy
      rcases List.mem_append.mp hy with h | h
      · exact hbase y h
      · have hyc : y = c := List.mem_singleton.mp h
        exact hyc ▸ hcands c (List.mem_cons_self c cs)
    · rw [if_neg hc] at hx
      exact ih base hbase (fun y hy => hcands y (List.mem_cons_of_mem c hy)) x hx

theorem alLookup_alInsert {α : Type} (l : List (String × α)) (k : String) (v : α) :
    alLookup (alInsert l k v) k = some v := by
  unfold alLookup alInsert
  induction l with
  | nil => simp
  | cons p ps ih =>
    by_cases h : p.1 = k
    · simp [List.filter_cons, h]
    · simp [List.filter_cons, h, List.find?_cons]

/-! ### Association-list lemmas for the invariant -/

theorem alLookup_alInsert_ne {α : Type} (l : List (String × α)) {k k' : String}
    (v : α) (h : k' ≠ k) : alLookup (alInsert l k v) k' = alLookup l k' := by
  unfold alLookup alInsert
  induction l with
  | nil => simp [Ne.symm h]
  | cons p ps ih =>
    by_cases hp : p.1 = k
    · rw [List.filter_cons_of_neg (by simp [hp]),
        List.find?_cons_of_neg _ (by simp [hp, Ne.symm h])]
      exact ih
    · rw [List.filter_cons_of_pos (by simp [hp]), List.cons_append,
        List.find?_cons, List.find?_cons]
      cases hb : (decide (p.1 = k') : Bool)
      · exact ih
      · rfl

theorem alLookup_alInsert_isSome {α : Type} (l : List (String × α)) (k k' : String)
    (v : α) (h : (alLookup l k').isSome) : (alLookup (alInsert l k v) k').isSome := by
  by_cases hk : k' = k
  · subst hk
    rw [alLookup_alInsert]
    rfl
  · rw [alLookup_alInsert_ne l v hk]
    exact h

theorem alLookup_alErase_ne {α : Type} (l : List (String × α)) {k k' : String}
    (h : k' ≠ k) : alLookup (alErase l k) k' = alLookup l k' := by
  unfold alLookup alErase
  induction l with
  | nil => simp
  | cons p ps ih =>
    by_cases hp : p.1 = k
    · rw [List.filter_cons_of_neg (by simp [hp]),
        List.find?_cons_of_neg _ (by simp [hp, Ne.symm h])]
      exact ih
    · rw [List.filter_cons_of_pos (by simp [hp]), List.find?_cons, List.find?_cons]
      cases hb : (decide (p.1 = k') : Bool)
      · exact ih
      · rfl

theorem alLookup_alErase_self {α : Type} (l : List (String × α)) (k : String) :
    alLookup (alErase l k) k = none := by
  unfold alLookup alErase
  induction l with
  | nil => rfl
  | cons p ps ih =>
    by_cases hp : p.1 = k
    · rw [List.filter_cons_of_neg (by simp [hp])]
      exact ih
    · rw [List.filter_cons_of_pos (by simp [hp]),
        List.find?_cons_of_neg _ (by simp [hp])]
      exact ih

theorem initStep_preserves (m : AgentMaps) (entry : String × List MCPFunc)
    (hm : registryConsistent m) : registryConsistent (initStep m entry) := by
  unfold initStep
  by_cases he : entry.2 = []
  · rw [if_pos he]
    intro k hk
    rcases hm k hk with ⟨h1, h2⟩
    exact ⟨alLookup_alInsert_isSome _ _ _ _ h1, alLookup_alInsert_isSome _ _ _ _ h2⟩
  · rw [if_neg he]
    intro k hk
    by_cases hkn : k = entry.1
    · subst hkn
      constructor <;> rw [alLookup_alInsert] <;> rfl
    · rw [alLookup_alInsert_ne _ _ hkn] at hk
      rcases hm k hk with ⟨h1, h2⟩
      exact ⟨alLookup_alInsert_isSome _ _ _ _ h1, alLookup_alInsert_isSome _ _ _ _ h2⟩

theorem foldl_initStep_preserves (l : List (String × List MCPFunc)) :
    ∀ m : AgentMaps, registryConsistent m → registryConsistent (l.foldl initStep m) := by
  induction l with
  | nil => exact fun m hm => hm
  | cons e es ih => exact fun m hm => ih _ (initStep_preserves m e hm)

/-- C10: every server name indexed in `tool_indexers` is also present in
`server_tools` and `mcp_connections`; the inclusion holds after
`initialize`, is preserved by successful `add_server` and `remove_server`,
a zero-tool server gets a `server_tools` entry but no indexer, and removal
deletes the server from all three maps (so in particular preserves the
inclusion). -/
theorem registry_consistency :
    (∀ configs : List (String × List MCPFunc),
      registryConsistent (MultiMCPAgentWithFiltering.initializeAgent configs))
    ∧ (∀ (m : AgentMaps) (config : MCPServerConfig) (functions : List MCPFunc)
        (m' : AgentMaps),
        registryConsistent m →
        RegistryService.add_server m config functions = .ok m' →
        registryConsistent m')
    ∧ (∀ (m : AgentMaps) (server_name : String) (m' : AgentMaps),
        registryConsistent m →
        RegistryService.remove_server m server_name = .ok m' →
        registryConsistent m'
        ∧ alLookup m'.mcp_connections server_name = none
        ∧ alLookup m'.server_tools server_name = none
        ∧ alLookup m'.tool_indexers server_name = none)
    ∧ (∀ (m : AgentMaps) (config : MCPServerConfig) (m' : AgentMaps),
        RegistryService.add_server m config [] = .ok m' →
        (alLookup m'.server_tools config.name).isSome
        ∧ m'.tool_indexers = m.tool_indexers)
    ∧ (∀ (m : AgentMaps) (entry : String × List MCPFunc), entry.2 = [] →
        (alLookup (initStep m entry).server_tools entry.1).isSome
        ∧ (initStep m entry).tool_indexers = m.tool_indexers) := by
  refine ⟨?_, ?_, ?_, ?_, ?_⟩
  · intro configs
    refine foldl_initStep_preserves configs ⟨[], [], []⟩ ?_
    intro k hk
    simp [alLookup] at hk
  · intro m config functions m' hm heq
    simp only [RegistryService.add_server] at heq
    split_ifs at heq with h1 h2 h3 h4
    · rcases Except.ok.inj heq with rfl
      intro k hk
      by_cases hkn : k = config.name
      · subst hkn
        constructor <;> rw [alLookup_alInsert] <;> rfl
      · rw [alLookup_alInsert_ne _ _ hkn] at hk
        rcases hm k hk with ⟨ha, hb⟩
        exact ⟨alLookup_alInsert_isSome _ _ _ _ ha, alLookup_alInsert_isSome _ _ _ _ hb⟩
    · rcases Except.ok.inj heq with rfl
      intro k hk
      rcases hm k hk with ⟨ha, hb⟩
      exact ⟨alLookup_alInsert_isSome _ _ _ _ ha, alLookup_alInsert_isSome _ _ _ _ hb⟩
  · intro m server_name m' hm heq
    simp only [RegistryService.remove_server] at heq
    split_ifs at heq with h1
    rcases Except.ok.inj heq with rfl
    refine ⟨?_, alLookup_alErase_self _ _, alLookup_alErase_self _ _,
      alLookup_alErase_self _ _⟩
    intro k hk
    by_cases hkn : k = server_name
    · subst hkn
      rw [alLookup_alErase_self] at hk
      cases hk
    · rw [alLookup_alErase_ne _ hkn] at hk
      rcases hm k hk with ⟨ha, hb⟩
      constructor <;> rw [alLookup_alErase_ne _ hkn] <;> assumption
  · intro m config m' heq
    simp only [RegistryService.add_server] at heq
    split_ifs at heq with h1 h2 h3 h4
    · exact absurd rfl h4
    · rcases Except.ok.inj heq with rfl
      refine ⟨?_, rfl⟩
      rw [alLookup_alInsert]
      rfl
  · intro m entry he
    unfold initStep
    rw [if_pos he]
    refine ⟨?_, rfl⟩
    rw [alLookup_alInsert]
    rfl

theorem registry_consistency_witness :
    registryConsistent (MultiMCPAgentWithFiltering.initializeAgent
      [("a", [⟨"f", some "d", 0⟩]), ("b", [])])
    ∧ (RegistryService.add_server ⟨[], [], []⟩ ⟨"a", "stdio", some "npx", none⟩
          [⟨"f", some "d", 0⟩]
        = .ok ⟨[("a", ())], [("a", [⟨"f", "d", 0⟩])], [("a", [⟨"f", "d", 0⟩])]⟩
      ∧ registryConsistent ⟨[("a", ())], [("a", [⟨"f", "d", 0⟩])], [("a", [⟨"f", "d", 0⟩])]⟩)
    ∧ (RegistryService.remove_server
          ⟨[("a", ())], [("a", [⟨"f", "d", 0⟩])], [("a", [⟨"f", "d", 0⟩])]⟩ "a"
        = .ok ⟨[], [], []⟩
      ∧ registryConsistent (⟨[], [], []⟩ : AgentMaps)
      ∧ alLookup ([] : List (String × Unit)) "a" = none)
    ∧ (RegistryService.add_server ⟨[], [], []⟩ ⟨"b", "stdio", some "npx", none⟩ []
        = .ok ⟨[("b", ())], [("b", [])], []⟩
      ∧ (alLookup ([("b", [])] : List (String × List Tool)) "b").isSome
      ∧ ([] : List (String × List Tool)) = [])
    ∧ ((alLookup (initStep ⟨[], [], []⟩ ("b", [])).server_tools "b").isSome
      ∧ (initStep ⟨[], [], []⟩ ("b", ([] : List MCPFunc))).tool_indexers = ([] : List (String × List Tool))) :=
  ⟨registry_consistency.1 [("a", [⟨"f", some "d", 0⟩]), ("b", [])],
   ⟨rfl, registry_consistency.2.1 ⟨[], [], []⟩ ⟨"a", "stdio", some "npx", none⟩
      [⟨"f", some "d", 0⟩] _ (fun k hk => by simp [alLookup] at hk) rfl⟩,
   ⟨rfl, by
      have h := registry_consistency.2.2.1
        ⟨[("a", ())], [("a", [⟨"f", "d", 0⟩])], [("a", [⟨"f", "d", 0⟩])]⟩ "a" ⟨[], [], []⟩
        (fun k hk => by
          by_cases hka : k = "a"
          · subst hka
            exact ⟨rfl, rfl⟩
          · exfalso
            rw [alLookup] at hk
            rw [List.find?_cons_of_neg _ (by simp [Ne.symm hka])] at hk
            simp [List.find?] at hk)
        rfl
      exact ⟨h.1, h.2.1⟩⟩,
   (by
      have h := registry_consistency.2.2.2.1 ⟨[], [], []⟩ ⟨"b", "stdio", some "npx", none⟩
        ⟨[("b", ())], [("b", [])], []⟩ rfl
      exact ⟨rfl, h.1, h.2⟩),
   registry_consistency.2.2.2.2 ⟨[], [], []⟩ ("b", []) rfl⟩

/-! ## Claim theorems for the hybrid search -/

theorem search_unfold_keyword {index_search : String → List Nat} {tools : List Tool}
    {query : String} {top_k : Nat} (hne : tools ≠ [])
    (hk : top_k ≤ (keywordMatches tools query).length) :
    FAISSToolIndexer.search index_search tools query top_k
      = ((sortByKeyDesc (keywordScore (toolKeywords query))
          (keywordMatches tools query)).take top_k, false) := by
  simp only [FAISSToolIndexer.search]
  rw [if_neg hne, if_pos hk]

theorem search_unfold_fallback {index_search : String → List Nat} {tools : List Tool}
    {query : String} {top_k : Nat} (hne : tools ≠ [])
    (hk : (keywordMatches tools query).length < top_k) :
    FAISSToolIndexer.search index_search tools query top_k
      = (((vectorCandidates index_search tools query top_k).foldl
          (fun res tool => if tool ∉ res ∧ res.length < top_k then res ++ [tool] else res)
          (keywordMatches tools query)).take top_k, true) := by
  simp only [FAISSToolIndexer.search]
  rw [if_neg hne, if_neg (Nat.not_le.mpr hk)]

/-- C1: when at least `top_k` tools have a positive keyword score, `search`
returns the first `top_k` keyword matches sorted descending by score with
original catalog order as the stable tie-break, and neither the vector
index nor the embedding provider is invoked (the fallback branch does not
run, and the result does not depend on the index at all). -/
theorem keyword_short_circuit (index_search : String → List Nat) (tools : List Tool)
    (query : String) (top_k : Nat) (hne : tools ≠ [])
    (hk : top_k ≤ (keywordMatches tools query).length) :
    (FAISSToolIndexer.search index_search tools query top_k).2 = false
    ∧ (∀ other : String → List Nat,
        FAISSToolIndexer.search other tools query top_k
          = FAISSToolIndexer.search index_search tools query top_k)
    ∧ (FAISSToolIndexer.search index_search tools query top_k).1
        = (specKeywordRanking tools query).take top_k := by
  refine ⟨by rw [search_unfold_keyword hne hk], fun other => by
    rw [search_unfold_keyword hne hk, search_unfold_keyword hne hk], ?_⟩
  rw [search_unfold_keyword hne hk, sortByKeyDesc_eq_specRanking]

theorem keyword_short_circuit_witness :
    (([⟨"send_email", "send an email", 0⟩, ⟨"post_message", "post to channel", 1⟩] : List Tool) ≠ []
    ∧ 1 ≤ (keywordMatches [⟨"send_email", "send an email", 0⟩, ⟨"post_message", "post to channel", 1⟩] "send email").length)
    ∧ ((FAISSToolIndexer.search (fun _ => [1, 0])
          [⟨"send_email", "send an email", 0⟩, ⟨"post_message", "post to channel", 1⟩] "send email" 1).2 = false
      ∧ (∀ other : String → List Nat,
          FAISSToolIndexer.search other
            [⟨"send_email", "send an email", 0⟩, ⟨"post_message", "post to channel", 1⟩] "send email" 1
            = FAISSToolIndexer.search (fun _ => [1, 0])
              [⟨"send_email", "send an email", 0⟩, ⟨"post_message", "post to channel", 1⟩] "send email" 1)
      ∧ (FAISSToolIndexer.search (fun _ => [1, 0])
          [⟨"send_email", "send an email", 0⟩, ⟨"post_message", "post to channel", 1⟩] "send email" 1).1
          = (specKeywordRanking
              [⟨"send_email", "send an email", 0⟩, ⟨"post_message", "post to channel", 1⟩] "send email").take 1) :=
  ⟨⟨by decide, by decide⟩,
    keyword_short_circuit (fun _ => [1, 0]) _ "send email" 1 (by decide) (by decide)⟩

/-- C2 counterexample: catalog `[aa (score 1), bb (score 2)]`, query "x y",
`top_k = 3`.  The claim demands the result start with `bb` (higher score);
the code returns catalog order `[aa, bb]`. -/
theorem hybrid_merge_counterexample : ¬ hybridSearchClaim := by
  intro h
  exact absurd
    (h (fun _ => [0, 1]) [⟨"aa", "x", 0⟩, ⟨"bb", "x y", 1⟩] "x y" 3 (by decide) (by decide))
    (by decide)

/-- C2 as amended: when fewer than `top_k` tools have a positive keyword
score, `search` returns the keyword matches in original catalog order
(not score-sorted), followed by semantic candidates from
`VectorIndex.search(query, min(2*top_k, total_tools))` not already
included, until `top_k` items are collected or candidates are exhausted,
returning at most `top_k`; the vector index is invoked. -/
theorem hybrid_merge_search (index_search : String → List Nat) (tools : List Tool)
    (query : String) (top_k : Nat) (hne : tools ≠ [])
    (hk : (keywordMatches tools query).length < top_k) :
    (FAISSToolIndexer.search index_search tools query top_k).1
      = specFill top_k (keywordMatches tools query)
          (vectorCandidates index_search tools query top_k)
    ∧ (FAISSToolIndexer.search index_search tools query top_k).2 = true := by
  rw [search_unfold_fallback hne hk]
  exact ⟨foldl_merge_take_eq_specFill top_k _ _, rfl⟩

theorem hybrid_merge_search_witness :
    (([⟨"aa", "x", 0⟩, ⟨"bb", "x y", 1⟩] : List Tool) ≠ []
    ∧ (keywordMatches [⟨"aa", "x", 0⟩, ⟨"bb", "x y", 1⟩] "x y").length < 3)
    ∧ ((FAISSToolIndexer.search (fun _ => [0, 1]) [⟨"aa", "x", 0⟩, ⟨"bb", "x y", 1⟩] "x y" 3).1
        = specFill 3 (keywordMatches [⟨"aa", "x", 0⟩, ⟨"bb", "x y", 1⟩] "x y")
            (vectorCandidates (fun _ => [0, 1]) [⟨"aa", "x", 0⟩, ⟨"bb", "x y", 1⟩] "x y" 3)
      ∧ (FAISSToolIndexer.search (fun _ => [0, 1]) [⟨"aa", "x", 0⟩, ⟨"bb", "x y", 1⟩] "x y" 3).2 = true) :=
  ⟨⟨by decide, by decide⟩,
    hybrid_merge_search (fun _ => [0, 1]) _ "x y" 3 (by decide) (by decide)⟩

/-- C8: `search` returns at most `top_k` items and only tools present in
the server's catalog, for every catalog, query and `top_k`. -/
theorem search_bounded_and_sound (index_search : String → List Nat) (tools : List Tool)
    (query : String) (top_k : Nat) :
    (FAISSToolIndexer.search index_search tools query top_k).1.length ≤ top_k
    ∧ ∀ t ∈ (FAISSToolIndexer.search index_search tools query top_k).1, t ∈ tools := by
  by_cases hne : tools = []
  · subst hne
    simp [FAISSToolIndexer.search]
  · by_cases hk : top_k ≤ (keywordMatches tools query).length
    · rw [search_unfold_keyword hne hk]
      refine ⟨List.length_take_le _ _, fun t ht => ?_⟩
      exact keywordMatches_subset (mem_sortByKeyDesc (List.mem_of_mem_take ht))
    · rw [search_unfold_fallback hne (Nat.lt_of_not_le hk)]
      refine ⟨List.length_take_le _ _, fun t ht => ?_⟩
      exact foldl_merge_mem top_k _ _
        (fun x hx => keywordMatches_subset hx)
        (fun x hx => vectorCandidates_subset hx)
        t (List.mem_of_mem_take ht)

theorem search_bounded_and_sound_witness :
    (FAISSToolIndexer.search (fun _ => [0, 1]) [⟨"aa", "x", 0⟩, ⟨"bb", "x y", 1⟩] "x" 1).1.length ≤ 1
    ∧ ∀ t ∈ (FAISSToolIndexer.search (fun _ => [0, 1]) [⟨"aa", "x", 0⟩, ⟨"bb", "x y", 1⟩] "x" 1).1,
        t ∈ ([⟨"aa", "x", 0⟩, ⟨"bb", "x y", 1⟩] : List Tool) :=
  search_bounded_and_sound (fun _ => [0, 1]) _ "x" 1

/-! ## Claim theorems for the index cache -/

theorem buildEmbeddings_total (embedfn : String → Nat) (tools : List Tool) :
    buildEmbeddings (fun s => .ok (embedfn s)) tools
      = (tools.length, .ok (tools.map fun t => embedfn (t.name ++ ": " ++ t.description))) := by
  induction tools with
  | nil => rfl
  | cons t ts ih => simp [buildEmbeddings, ih]

theorem buildEmbeddings_fingerprint_congr (embed : String → Except String Nat) :
    ∀ a b : List Tool, toolFingerprint a = toolFingerprint b →
      buildEmbeddings embed a = buildEmbeddings embed b := by
  intro a
  induction a with
  | nil =>
    intro b hb
    cases b with
    | nil => rfl
    | cons u us => simp [toolFingerprint] at hb
  | cons t ts ih =>
    intro b hb
    cases b with
    | nil => simp [toolFingerprint] at hb
    | cons u us =>
      simp only [toolFingerprint, List.map_cons, List.cons.injEq, Prod.mk.injEq] at hb
      obtain ⟨⟨hn, hd⟩, htail⟩ := hb
      simp only [buildEmbeddings, hn, hd]
      rw [ih us htail]

/-- C4 counterexample: constructing an indexer over an empty tool list with
a pre-existing (stale) cache entry returns early: nothing is rebuilt and
the cache is NOT overwritten, contradicting the claim's "otherwise"
clause. -/
theorem cache_gate_counterexample : ¬ cacheUseClaim := by
  intro h
  rcases (h (fun _ => 0) [] ⟨some [7], some [("a", "b")]⟩).2.1 (by decide) with ⟨-, hcache⟩
  exact absurd hcache (by decide)

/-- C4 as amended: for a NON-EMPTY tool list, the cached index is used with
no embedding calls iff both cache files exist and the stored fingerprint
equals the current (name, description) sequence; otherwise the index is
rebuilt (one embedding call per item) and both cache files are
overwritten; metadata changes outside name/description alter nothing.
(With an empty tool list, construction is a no-op that leaves the cache
untouched — see the empty-catalog theorem.) -/
theorem cache_fingerprint_gate (embedfn : String → Nat) (tools : List Tool)
    (cache : CacheState) (hne : tools ≠ []) :
    (((FAISSToolIndexer.init (fun s => .ok (embedfn s)) tools cache).2.1 = 0
        ∧ (FAISSToolIndexer.init (fun s => .ok (embedfn s)) tools cache).2.2 = .ok cache.indexFile)
      ↔ (cache.indexFile ≠ none ∧ cache.metaFile = some (toolFingerprint tools)))
    ∧ (¬ (cache.indexFile ≠ none ∧ cache.metaFile = some (toolFingerprint tools)) →
        (FAISSToolIndexer.init (fun s => .ok (embedfn s)) tools cache).2.1 = tools.length
        ∧ (FAISSToolIndexer.init (fun s => .ok (embedfn s)) tools cache).1
          = ⟨some (tools.map fun t => embedfn (t.name ++ ": " ++ t.description)),
             some (toolFingerprint tools)⟩)
    ∧ (∀ tools₂ : List Tool, toolFingerprint tools₂ = toolFingerprint tools →
        FAISSToolIndexer.init (fun s => .ok (embedfn s)) tools₂ cache
          = FAISSToolIndexer.init (fun s => .ok (embedfn s)) tools cache) := by
  have hlen : tools.length ≠ 0 := fun h => hne (List.length_eq_zero.mp h)
  have hcongr : ∀ tools₂ : List Tool, toolFingerprint tools₂ = toolFingerprint tools →
      FAISSToolIndexer.init (fun s => .ok (embedfn s)) tools₂ cache
        = FAISSToolIndexer.init (fun s => .ok (embedfn s)) tools cache := by
    intro tools₂ hfp
    have hne₂ : tools₂ ≠ [] := by
      intro h
      subst h
      have : tools.map (fun t => (t.name, t.description)) = [] := hfp.symm
      exact hne (List.map_eq_nil_iff.mp this)
    unfold FAISSToolIndexer.init
    rw [if_neg hne, if_neg hne₂, hfp, buildEmbeddings_fingerprint_congr _ tools₂ tools hfp]
  refine ⟨?_, ?_, hcongr⟩ <;>
  · rcases cache with ⟨ifile, mfile⟩
    unfold FAISSToolIndexer.init
    rw [if_neg hne, buildEmbeddings_total]
    rcases ifile with - | idx <;> rcases mfile with - | meta <;>
      simp only [BaseFAISSIndexer.load_or_build, ne_eq]
    · simp_all
    · simp_all
    · simp_all
    · by_cases hm : meta = toolFingerprint tools
      · subst hm
        rw [if_neg (by simp)]
        simp_all
      · rw [if_pos (by simpa using hm)]
        simp_all

theorem cache_fingerprint_gate_witness :
    (([⟨"t1", "d1", 0⟩] : List Tool) ≠ [])
    ∧ ((((FAISSToolIndexer.init (fun s => .ok (s.length)) [⟨"t1", "d1", 0⟩] ⟨none, none⟩).2.1 = 0
        ∧ (FAISSToolIndexer.init (fun s => .ok (s.length)) [⟨"t1", "d1", 0⟩] ⟨none, none⟩).2.2
            = .ok (CacheState.mk none none).indexFile)
      ↔ ((CacheState.mk none none).indexFile ≠ none
        ∧ (CacheState.mk none none).metaFile = some (toolFingerprint [⟨"t1", "d1", 0⟩])))
    ∧ (¬ ((CacheState.mk none none).indexFile ≠ none
        ∧ (CacheState.mk none none).metaFile = some (toolFingerprint [⟨"t1", "d1", 0⟩])) →
        (FAISSToolIndexer.init (fun s => .ok (s.length)) [⟨"t1", "d1", 0⟩] ⟨none, none⟩).2.1
          = ([⟨"t1", "d1", 0⟩] : List Tool).length
        ∧ (FAISSToolIndexer.init (fun s => .ok (s.length)) [⟨"t1", "d1", 0⟩] ⟨none, none⟩).1
          = ⟨some (([⟨"t1", "d1", 0⟩] : List Tool).map fun t => (t.name ++ ": " ++ t.description).length),
             some (toolFingerprint [⟨"t1", "d1", 0⟩])⟩)
    ∧ (∀ tools₂ : List Tool, toolFingerprint tools₂ = toolFingerprint [⟨"t1", "d1", 0⟩] →
        FAISSToolIndexer.init (fun s => .ok (s.length)) tools₂ ⟨none, none⟩
          = FAISSToolIndexer.init (fun s => .ok (s.length)) [⟨"t1", "d1", 0⟩] ⟨none, none⟩)) :=
  ⟨by decide, cache_fingerprint_gate (fun s => s.length) [⟨"t1", "d1", 0⟩] ⟨none, none⟩ (by decide)⟩

/-- C7: when the embedding service fails during a cache-miss (or
fingerprint-mismatch) rebuild, the error propagates to the caller and the
on-disk cache files are left exactly as they were — `_save` is only
reached after `build_fn()` returns. -/
theorem rebuild_failure_preserves_cache (embed : String → Except String Nat)
    (tools : List Tool) (cache : CacheState) (e : String)
    (hmiss : ¬ (cache.indexFile ≠ none ∧ cache.metaFile = some (toolFingerprint tools)))
    (hfail : (buildEmbeddings embed tools).2 = .error e) :
    (FAISSToolIndexer.init embed tools cache).1 = cache
    ∧ (FAISSToolIndexer.init embed tools cache).2.2 = .error e := by
  have hne : tools ≠ [] := by
    intro h
    subst h
    simp [buildEmbeddings] at hfail
  have hsplit : buildEmbeddings embed tools
      = ((buildEmbeddings embed tools).1, Except.error e) := by
    rw [← hfail]
  unfold FAISSToolIndexer.init
  rw [if_neg hne, hsplit]
  rcases cache with ⟨ifile, mfile⟩
  rcases ifile with - | idx <;> rcases mfile with - | meta <;>
    simp only [BaseFAISSIndexer.load_or_build, ne_eq]
  · simp
  · simp
  · simp
  · have hm : meta ≠ toolFingerprint tools := by
      intro h
      exact hmiss (by simp [h])
    rw [if_pos (by simpa using hm)]
    simp

theorem rebuild_failure_preserves_cache_witness :
    ((¬ ((CacheState.mk (some [3]) (some [("old", "meta")])).indexFile ≠ none
        ∧ (CacheState.mk (some [3]) (some [("old", "meta")])).metaFile
            = some (toolFingerprint [⟨"t1", "d1", 0⟩])))
    ∧ (buildEmbeddings (fun _ => .error "embedding service down") [⟨"t1", "d1", 0⟩]).2
        = .error "embedding service down")
    ∧ ((FAISSToolIndexer.init (fun _ => .error "embedding service down") [⟨"t1", "d1", 0⟩]
          ⟨some [3], some [("old", "meta")]⟩).1 = ⟨some [3], some [("old", "meta")]⟩
      ∧ (FAISSToolIndexer.init (fun _ => .error "embedding service down") [⟨"t1", "d1", 0⟩]
          ⟨some [3], some [("old", "meta")]⟩).2.2 = .error "embedding service down") :=
  ⟨⟨by decide, by rfl⟩,
    rebuild_failure_preserves_cache (fun _ => .error "embedding service down")
      [⟨"t1", "d1", 0⟩] ⟨some [3], some [("old", "meta")]⟩ "embedding service down"
      (by decide) (by rfl)⟩

/-- C9: a server contributing zero tools makes indexer construction a
no-op — no embedding call, no cache access, no index — and every search on
it returns the empty sequence without invoking the vector index and
without error. -/
theorem empty_catalog_noop (embed : String → Except String Nat) (cache : CacheState)
    (index_search : String → List Nat) (query : String) (top_k : Nat) :
    FAISSToolIndexer.init embed [] cache = (cache, 0, .ok none)
    ∧ FAISSToolIndexer.search index_search [] query top_k = ([], false) :=
  ⟨rfl, rfl⟩

/-! ## Claim theorems for the orchestration loop -/

/-- C6: an LLM planner response that is not valid JSON after fence
stripping is fatal for the request — `plan()` raises, and both
orchestration loops abort with that error before any filtering or tool
search occurs (the error is returned before the filtering stage can
produce any state or execution call). -/
theorem plan_parse_fatal (jsonParse : String → Option Plan) (llmResponse : String)
    (h : jsonParse (OrchestratorAgent.decode_json llmResponse) = none) :
    OrchestratorAgent.plan jsonParse llmResponse = .error (.planParse llmResponse)
    ∧ (∀ (newThread : Nat) (ag : MultiMCPAgentState) (query : String) (thread : Option Nat),
        MultiMCPAgentWithFiltering.run jsonParse llmResponse newThread ag query thread
          = .error (.planParse llmResponse))
    ∧ (∀ (newThread : Nat) (st : AgentServiceState) (query : String)
        (session_id : Option String),
        AgentService.process_query jsonParse llmResponse newThread st query session_id
          = .error (.planParse llmResponse)) := by
  have hp : OrchestratorAgent.plan jsonParse llmResponse = .error (.planParse llmResponse) := by
    unfold OrchestratorAgent.plan
    rw [h]
  refine ⟨hp, fun nt ag q th => ?_, fun nt st q sid => ?_⟩
  · unfold MultiMCPAgentWithFiltering.run
    rw [hp]
  · unfold AgentService.process_query
    rw [hp]

theorem plan_parse_fatal_witness :
    ((fun _ : String => (none : Option Plan))
        (OrchestratorAgent.decode_json "not json") = none)
    ∧ (OrchestratorAgent.plan (fun _ => none) "not json"
        = .error (.planParse "not json")
      ∧ (∀ (newThread : Nat) (ag : MultiMCPAgentState) (query : String) (thread : Option Nat),
          MultiMCPAgentWithFiltering.run (fun _ => none) "not json" newThread ag query thread
            = .error (.planParse "not json"))
      ∧ (∀ (newThread : Nat) (st : AgentServiceState) (query : String)
          (session_id : Option String),
          AgentService.process_query (fun _ => none) "not json" newThread st query session_id
            = .error (.planParse "not json"))) :=
  ⟨rfl, plan_parse_fatal (fun _ => none) "not json" rfl⟩

/-- C3 (the code evaluated at the failing input): when the planned servers
own zero tools in total, `MultiMCPAgentWithFiltering.run` returns the
neutral "No tools available" outcome without invoking the execution agent
(`.ok none`), but `AgentService.process_query` — the path served by the
API routes — invokes the execution agent anyway, with an empty tool list.
The third conjunct checks the fallback itself on a catalog with tools:
when filtering selects nothing, execution receives every tool of every
planned server. -/
theorem empty_toolset_divergence :
    MultiMCPAgentWithFiltering.run (fun _ => some ⟨["s"], []⟩) "resp" 0
      ⟨[("s", [])], []⟩ "hi" none = .ok none
    ∧ AgentService.process_query (fun _ => some ⟨["s"], []⟩) "resp" 0
        ⟨⟨[("s", [])], []⟩, []⟩ "hi" none
        = .ok (⟨⟨[("s", [])], []⟩, []⟩, ⟨[], none, 0⟩)
    ∧ MultiMCPAgentWithFiltering.run
        (fun _ => some ⟨["serverA", "serverB"], [("serverA", "zzz"), ("serverB", "zzz")]⟩)
        "resp" 0
        ⟨[("serverA", [⟨"send_email", "send an email", 0⟩]),
          ("serverB", [⟨"post_message", "post a message", 1⟩])],
         [("serverA", ⟨[⟨"send_email", "send an email", 0⟩], fun _ => []⟩),
          ("serverB", ⟨[⟨"post_message", "post a message", 1⟩], fun _ => []⟩)]⟩
        "zzz" none
        = .ok (some ⟨[⟨"send_email", "send an email", 0⟩,
                      ⟨"post_message", "post a message", 1⟩], none, 0⟩) :=
  ⟨rfl, rfl, rfl⟩

/-- C5 counterexample: the empty string is a falsy session id in Python
(`if session_id:`), so with `session_id = ""` the first query's thread is
never stored and the second query executes with a null thread. -/
theorem session_continuity_counterexample : ¬ sessionContinuityClaim := by
  intro h
  have := h (fun _ => some ⟨[], []⟩) "r1" "r2" 1 2 ⟨⟨[], []⟩, []⟩ "q1" "q2" ""
    ⟨⟨[], []⟩, []⟩ ⟨⟨[], []⟩, []⟩ ⟨[], none, 1⟩ ⟨[], none, 2⟩ rfl rfl
  exact absurd this.1 (by decide)

/-- Unfolding of a successful `process_query` with a truthy session id:
the thread passed to execution is the stored one (if any), the used
thread defaults to a fresh one, and the store is updated under the id. -/
theorem process_query_ok (jsonParse : String → Option Plan) (llmResponse : String)
    (nt : Nat) (st : AgentServiceState) (q : String) (sid : String) (p : Plan)
    (hplan : OrchestratorAgent.plan jsonParse llmResponse = .ok p) (hsid : sid ≠ "") :
    AgentService.process_query jsonParse llmResponse nt st q (some sid)
      = .ok (⟨st.agent, alInsert st.threads sid ((alLookup st.threads sid).getD nt)⟩,
             ⟨(if planFilter st.agent p q = [] then fallbackAllTools st.agent p
                else planFilter st.agent p q),
              alLookup st.threads sid,
              (alLookup st.threads sid).getD nt⟩) := by
  have htruthy : pyTruthyStr (some sid) = true := by simp [pyTruthyStr, hsid]
  unfold AgentService.process_query
  rw [hplan]
  simp only [htruthy, if_true, Option.getD_some, OrchestratorAgent.execute]

/-- C5 as amended: for every pair of queries sharing the same NON-EMPTY
session id, the first query's updated thread is stored under that id
(overwriting any prior thread for the session), and the second query
passes exactly that stored thread — not null — to the execution step. -/
theorem session_continuity (jsonParse : String → Option Plan)
    (llmResponse1 llmResponse2 : String)
    (newT1 newT2 : Nat) (st : AgentServiceState) (q1 q2 : String) (sid : String)
    (st1 st2 : AgentServiceState) (c1 c2 : ExecCall)
    (hsid : sid ≠ "")
    (h1 : AgentService.process_query jsonParse llmResponse1 newT1 st q1 (some sid)
      = .ok (st1, c1))
    (h2 : AgentService.process_query jsonParse llmResponse2 newT2 st1 q2 (some sid)
      = .ok (st2, c2)) :
    alLookup st1.threads sid = some c1.usedThread
    ∧ c2.passedThread = some c1.usedThread := by
  rcases hplan1 : OrchestratorAgent.plan jsonParse llmResponse1 with e | p1
  · exfalso
    unfold AgentService.process_query at h1
    rw [hplan1] at h1
    cases h1
  · rcases hplan2 : OrchestratorAgent.plan jsonParse llmResponse2 with e | p2
    · exfalso
      unfold AgentService.process_query at h2
      rw [hplan2] at h2
      cases h2
    · rw [process_query_ok jsonParse llmResponse1 newT1 st q1 sid p1 hplan1 hsid] at h1
      rw [process_query_ok jsonParse llmResponse2 newT2 st1 q2 sid p2 hplan2 hsid] at h2
      have h1' := Except.ok.inj h1
      have h2' := Except.ok.inj h2
      have hst1 := congrArg Prod.fst h1'
      have hc1 := congrArg Prod.snd h1'
      have hc2 := congrArg Prod.snd h2'
      simp only at hst1 hc1 hc2
      subst hst1
      subst hc1
      subst hc2
      exact ⟨alLookup_alInsert st.threads sid ((alLookup st.threads sid).getD newT1),
        alLookup_alInsert st.threads sid ((alLookup st.threads sid).getD newT1)⟩

theorem session_continuity_witness :
    (("s1" : String) ≠ ""
    ∧ AgentService.process_query (fun _ => some ⟨[], []⟩) "r1" 5 ⟨⟨[], []⟩, []⟩ "q1" (some "s1")
        = .ok (⟨⟨[], []⟩, [("s1", 5)]⟩, ⟨[], none, 5⟩)
    ∧ AgentService.process_query (fun _ => some ⟨[], []⟩) "r2" 9
        ⟨⟨[], []⟩, [("s1", 5)]⟩ "q2" (some "s1")
        = .ok (⟨⟨[], []⟩, [("s1", 5)]⟩, ⟨[], some 5, 5⟩))
    ∧ (alLookup ([("s1", 5)] : List (String × Nat)) "s1" = some 5
      ∧ (some 5 : Option Nat) = some 5) :=
  ⟨⟨by decide, rfl, rfl⟩,
    session_continuity (fun _ => some ⟨[], []⟩) "r1" "r2" 5 9 ⟨⟨[], []⟩, []⟩ "q1" "q2" "s1"
      ⟨⟨[], []⟩, [("s1", 5)]⟩ ⟨⟨[], []⟩, [("s1", 5)]⟩ ⟨[], none, 5⟩ ⟨[], some 5, 5⟩
      (by decide) rfl rfl⟩
